import Mathlib

/-
Verification development for the Hermes workspace index synchronization
engine (`apps/native/src-tauri/src/lib.rs`).

The Rust source is shallowly embedded as executable Lean definitions:

* pure string helpers (`sql_escape`, `word_count`, `extract_title`) are
  translated directly, with Rust's Unicode-whitespace `trim`,
  `split_whitespace` and `lines` modelled at the `List Char` level;
* the SQL script emitted by `sync_workspace_index` is modelled twice, and
  both views are built from the same per-slot data in source order:
  as a structured statement list (`passStmts`) whose row-level semantics
  (`stmtRowEffect`) give the synchronization pass `syncPass`, and as the
  literal script text (`buildScript`), assembled from the `format!`
  fragments of the source so that quoting/escaping can be analysed;
* the filesystem seen by `load_workspace_pages` / `save_workspace_pages`
  is an explicit map from slot key to the state of `{root}/{key}.md`.
-/

set_option maxRecDepth 8192

namespace Hermes

/-- The five enumerated slot keys (`TAB_KEYS` in the source). -/
def TAB_KEYS : List String := ["coral", "amber", "sage", "sky", "lavender"]

/-- The single-quote character `0x27`, written by code point. -/
def quoteChar : Char := Char.ofNat 39

/-- The newline character. -/
def nlChar : Char := Char.ofNat 10

/-- The carriage-return character. -/
def crChar : Char := Char.ofNat 13

/-- Code points of Rust's `char::is_whitespace` (Unicode `White_Space`). -/
def rustWhitespaceVals : List UInt32 :=
  [9, 10, 11, 12, 13, 32, 0x85, 0xA0, 0x1680,
   0x2000, 0x2001, 0x2002, 0x2003, 0x2004, 0x2005, 0x2006, 0x2007,
   0x2008, 0x2009, 0x200A, 0x2028, 0x2029, 0x202F, 0x205F, 0x3000]

/-- Rust's `char::is_whitespace`. -/
def isRustWhitespace (c : Char) : Bool :=
  rustWhitespaceVals.contains c.val

/-- Drop leading and trailing whitespace from a character list. -/
def trimChars (l : List Char) : List Char :=
  ((l.dropWhile isRustWhitespace).reverse.dropWhile isRustWhitespace).reverse

/-- Rust's `str::trim`. -/
def rustTrim (s : String) : String :=
  String.mk (trimChars s.data)

/-- `content.trim().is_empty()` — blankness test used throughout the source. -/
def blank (s : String) : Bool :=
  (rustTrim s).data.isEmpty

/-- Character-level form of `value.replace('\x27', "\x27\x27")`: every
single quote is doubled. -/
def sqlEscapeChars : List Char → List Char
  | [] => []
  | c :: cs =>
    if c = quoteChar then quoteChar :: quoteChar :: sqlEscapeChars cs
    else c :: sqlEscapeChars cs

/-- `sql_escape` from the source. -/
def sql_escape (value : String) : String :=
  String.mk (sqlEscapeChars value.data)

/-- Worker for Rust's `str::split_whitespace`: splits into maximal runs of
non-whitespace characters (the accumulator holds the current token,
reversed). -/
def splitWsAux : List Char → List Char → List String
  | [], acc => if acc.isEmpty then [] else [String.mk acc.reverse]
  | c :: cs, acc =>
    if isRustWhitespace c then
      if acc.isEmpty then splitWsAux cs []
      else String.mk acc.reverse :: splitWsAux cs []
    else splitWsAux cs (c :: acc)

/-- Rust's `str::split_whitespace`. -/
def split_whitespace (s : String) : List String :=
  splitWsAux s.data []

/-- `word_count` from the source:
`content.split_whitespace().filter(|word| !word.is_empty()).count()`. -/
def word_count (content : String) : Nat :=
  ((split_whitespace content).filter (fun word => !word.isEmpty)).length

/-- Split into fragments that each include their terminating newline
(the last fragment may lack one); models `str::split_inclusive('\n')`,
which underlies Rust's `str::lines`. -/
def splitIncl : List Char → List Char → List (List Char)
  | [], acc => if acc.isEmpty then [] else [acc.reverse]
  | c :: cs, acc =>
    if c = nlChar then (c :: acc).reverse :: splitIncl cs []
    else splitIncl cs (c :: acc)

/-- Per-line cleanup of `str::lines`: strip a trailing newline, and a
trailing carriage return only when a newline was stripped. -/
def lineMap (l : List Char) : List Char :=
  match l.getLast? with
  | some c =>
    if c = nlChar then
      let l2 := l.dropLast
      match l2.getLast? with
      | some c2 => if c2 = crChar then l2.dropLast else l2
      | none => l2
    else l
  | none => l

/-- Rust's `str::lines`. -/
def rustLines (s : String) : List String :=
  (splitIncl s.data []).map (fun l => String.mk (lineMap l))

/-- The loop body of `extract_title`, recursing over the lines of the
content: skip lines blank after trimming, strip leading `#` characters
and surrounding whitespace, skip if that is empty, otherwise take the
first 120 characters. -/
def extractTitleFromLines : List String → String
  | [] => ""
  | line :: rest =>
    let trimmed := rustTrim line
    if trimmed.data.isEmpty then extractTitleFromLines rest
    else
      let without_heading := rustTrim (String.mk (trimmed.data.dropWhile (fun c => c = '#')))
      if without_heading.data.isEmpty then extractTitleFromLines rest
      else String.mk (without_heading.data.take 120)

/-- `extract_title` from the source. -/
def extract_title (content : String) : String :=
  extractTitleFromLines (rustLines content)

/-- Modelled from the spec: the cleaned form of one line — "strip any
leading heading-marker characters (leading `#` characters) and
surrounding whitespace" from the trimmed line. Used only to state the
spec's description of title extraction for comparison with
`extract_title`. -/
def cleanLine (line : String) : String :=
  rustTrim (String.mk ((rustTrim line).data.dropWhile (fun c => c = '#')))

/-- Modelled from the spec: the title of a line, `none` when the cleaned
line is empty (the scan "continues to the next line"). -/
def lineTitle (line : String) : Option String :=
  let t := cleanLine line
  if t.data.isEmpty then none else some t

/-- Modelled from the spec: "scan lines top-to-bottom … the title is the
result truncated to 120 characters; if no line yields a non-empty title,
title is the empty string". -/
def specTitleFromLines (l : List String) : String :=
  match l.filterMap lineTitle with
  | [] => ""
  | t :: _ => String.mk (t.data.take 120)

/-- Modelled from the spec: title extraction as the spec words it. -/
def specTitle (content : String) : String :=
  specTitleFromLines (rustLines content)

/-- The decimal digit character for `d % 10`. -/
def digitChar (d : Nat) : Char :=
  match d with
  | 0 => '0' | 1 => '1' | 2 => '2' | 3 => '3' | 4 => '4'
  | 5 => '5' | 6 => '6' | 7 => '7' | 8 => '8' | _ => '9'

/-- Fuel-driven decimal rendering of a natural number (the fuel starts at
`n + 1`, which is enough since `n / 10 < n` for `n ≥ 10`). -/
def decimalAux : Nat → Nat → List Char
  | 0, _ => []
  | fuel + 1, n =>
    if n < 10 then [digitChar (n % 10)]
    else decimalAux fuel (n / 10) ++ [digitChar (n % 10)]

/-- Decimal rendering of a natural number; models `format!("{}", n)` for
the numeric columns of the script. -/
def decimal (n : Nat) : String :=
  String.mk (decimalAux (n + 1) n)

/-- One row of the `note_index` table, minus the `tab_key` primary key
(the table is modelled as a map keyed by `tab_key`). `updated_unix` is a
`Nat`: the source computes it as nonnegative seconds since the epoch. -/
structure NoteRecord where
  file_path : String
  title : String
  body : String
  word_count : Nat
  char_count : Nat
  updated_unix : Nat
deriving DecidableEq

/-- One row of the `note_fts` shadow table. -/
structure FtsRow where
  tab_key : String
  title : String
  body : String
deriving DecidableEq

/-- The row contents of the index: `note_index` as a map from primary key
to record (at most one live row per key, as enforced by `PRIMARY KEY`),
and `note_fts` as a bag of rows (an fts5 table has no key). -/
@[ext] structure IndexDb where
  note_index : String → Option NoteRecord
  note_fts : Multiset FtsRow

/-- `DELETE FROM note_index WHERE tab_key = key`. -/
def dbDeleteIndex (db : IndexDb) (key : String) : IndexDb :=
  { db with note_index := fun k => if k = key then none else db.note_index k }

/-- `INSERT INTO note_index … ON CONFLICT(tab_key) DO UPDATE SET` every
column to the excluded row: a full upsert of the row at `key`. -/
def dbUpsertIndex (db : IndexDb) (key : String) (r : NoteRecord) : IndexDb :=
  { db with note_index := fun k => if k = key then some r else db.note_index k }

/-- `DELETE FROM note_fts WHERE tab_key = key`. -/
def dbDeleteFts (db : IndexDb) (key : String) : IndexDb :=
  { db with note_fts := db.note_fts.filter (fun r => ¬ r.tab_key = key) }

/-- `INSERT INTO note_fts(tab_key, title, body) VALUES (…)`. -/
def dbInsertFts (db : IndexDb) (row : FtsRow) : IndexDb :=
  { db with note_fts := Multiset.cons row db.note_fts }

/-- The statements of a synchronization script, in the shape emitted by
`sync_workspace_index`: schema statements, transaction control, and the
per-slot DML. -/
inductive SqlStmt where
  | pragmaWal
  | createNoteIndex
  | createUpdatedIdx
  | createNoteFts
  | beginImmediate
  | deleteIndex (key : String)
  | deleteFts (key : String)
  | upsertIndex (key : String) (r : NoteRecord)
  | insertFts (row : FtsRow)
  | commit
deriving DecidableEq

/-- Effect of a statement on the row contents of the index. Schema and
transaction-control statements leave the rows unchanged. -/
def stmtRowEffect (s : SqlStmt) (db : IndexDb) : IndexDb :=
  match s with
  | SqlStmt.deleteIndex key => dbDeleteIndex db key
  | SqlStmt.deleteFts key => dbDeleteFts db key
  | SqlStmt.upsertIndex key r => dbUpsertIndex db key r
  | SqlStmt.insertFts row => dbInsertFts db row
  | _ => db

/-- Apply a list of statements' row effects in order. -/
def applyStmts (stmts : List SqlStmt) (db : IndexDb) : IndexDb :=
  stmts.foldl (fun d s => stmtRowEffect s d) db

/-- Whether a statement is one of the per-slot DML statements. -/
def isDml (s : SqlStmt) : Bool :=
  match s with
  | SqlStmt.deleteIndex _ => true
  | SqlStmt.deleteFts _ => true
  | SqlStmt.upsertIndex _ _ => true
  | SqlStmt.insertFts _ => true
  | _ => false

/-- The slot key a DML statement addresses, if any. -/
def stmtKey (s : SqlStmt) : Option String :=
  match s with
  | SqlStmt.deleteIndex key => some key
  | SqlStmt.deleteFts key => some key
  | SqlStmt.upsertIndex key _ => some key
  | SqlStmt.insertFts row => some row.tab_key
  | _ => none

/-- The statements the loop body of `sync_workspace_index` emits for one
slot: a delete pair when the content is blank, otherwise the upsert of
the `note_index` row and the delete/insert replacement of the `note_fts`
row. A slot absent from the mapping yields the empty content
(`pages.get(tab).cloned().unwrap_or_default()`). -/
def slotStmts (ws : String) (pages : String → Option String) (now : Nat)
    (tab : String) : List SqlStmt :=
  let content := ((pages tab).getD "")
  if blank content then
    [SqlStmt.deleteIndex tab, SqlStmt.deleteFts tab]
  else
    let title := extract_title content
    let file_path := ws ++ "/" ++ tab ++ ".md"
    [SqlStmt.upsertIndex tab
      ⟨file_path, title, content, word_count content, content.data.length, now⟩,
     SqlStmt.deleteFts tab,
     SqlStmt.insertFts ⟨tab, title, content⟩]

/-- All DML of one pass, accumulated over `TAB_KEYS` in order exactly as
the source's `push_str` loop. -/
def passDml (ws : String) (pages : String → Option String) (now : Nat) : List SqlStmt :=
  TAB_KEYS.foldl (fun acc tab => acc ++ slotStmts ws pages now tab) []

/-- The complete statement list of a synchronization script: the schema
header, `BEGIN IMMEDIATE`, the per-slot DML, `COMMIT`. -/
def passStmts (ws : String) (pages : String → Option String) (now : Nat) : List SqlStmt :=
  SqlStmt.pragmaWal :: SqlStmt.createNoteIndex :: SqlStmt.createUpdatedIdx ::
    SqlStmt.createNoteFts :: SqlStmt.beginImmediate ::
    (passDml ws pages now ++ [SqlStmt.commit])

/-- The row-level outcome of one committed synchronization pass. -/
def syncPass (ws : String) (pages : String → Option String) (now : Nat)
    (db : IndexDb) : IndexDb :=
  applyStmts (passDml ws pages now) db

/-- The `note_index` row a pass leaves for an enumerated slot (derived
summary used in the statements of the theorems below). -/
def slotRecord (ws : String) (pages : String → Option String) (now : Nat)
    (tab : String) : Option NoteRecord :=
  let content := ((pages tab).getD "")
  if blank content then none
  else some ⟨ws ++ "/" ++ tab ++ ".md", extract_title content, content,
             word_count content, content.data.length, now⟩

/-- The `note_fts` rows a pass contributes for an enumerated slot. -/
def slotFts (pages : String → Option String) (tab : String) : Multiset FtsRow :=
  let content := ((pages tab).getD "")
  if blank content then 0
  else {⟨tab, extract_title content, content⟩}

/-- The `note_fts` rows a pass contributes for a list of slots. -/
def rowsFor (pages : String → Option String) : List String → Multiset FtsRow
  | [] => 0
  | tab :: rest => slotFts pages tab + rowsFor pages rest

/-- Slot-by-slot form of the pass, used by the proofs. -/
def applyTabsFold (ws : String) (pages : String → Option String) (now : Nat)
    (tabs : List String) (db : IndexDb) : IndexDb :=
  tabs.foldl (fun d tab => applyStmts (slotStmts ws pages now tab) d) db

/-- Modelled from the spec: the state of the sqlite3 script executor
(the `sqlite3` binary is outside the repository). `committed` is the
durable table state, `current` the uncommitted working state, `inTxn`
whether an explicit transaction is open. A statement outside a
transaction autocommits; `BEGIN IMMEDIATE` opens a transaction; `COMMIT`
makes the working state durable. A crash or a rejected statement stops
the script, and only `committed` survives. -/
structure ExecState where
  committed : IndexDb
  current : IndexDb
  inTxn : Bool

/-- Modelled from the spec: executing one statement of the script. -/
def execStmt (st : ExecState) (s : SqlStmt) : ExecState :=
  match s with
  | SqlStmt.beginImmediate => ⟨st.committed, st.committed, true⟩
  | SqlStmt.commit => ⟨st.current, st.current, false⟩
  | s =>
    if st.inTxn then ⟨st.committed, stmtRowEffect s st.current, true⟩
    else ⟨stmtRowEffect s st.current, stmtRowEffect s st.current, false⟩

/-- The durable index state after executing only the statements `p` (the
prefix of the script that ran before a crash or a rejected statement). -/
def runScriptPart (p : List SqlStmt) (db : IndexDb) : IndexDb :=
  (p.foldl execStmt ⟨db, db, false⟩).committed

/-- Scanner over script text tracking whether a position is inside a
single-quoted SQL string literal: each quote character toggles the state
(a doubled quote toggles twice, i.e. stays inside the literal, which is
exactly sqlite's escape rule). Returns the final state. -/
def scanEnd (b : Bool) : List Char → Bool
  | [] => b
  | c :: cs => if c = quoteChar then scanEnd (!b) cs else scanEnd b cs

/-- Count of statement terminators (`;` outside any string literal). -/
def scanCnt (b : Bool) : List Char → Nat
  | [] => 0
  | c :: cs =>
    if c = quoteChar then scanCnt (!b) cs
    else (if c = ';' ∧ b = false then 1 else 0) + scanCnt b cs

/-- Number of statement terminators of a script at top level: the
statement structure seen by the sql parser. -/
def stmtCount (s : String) : Nat :=
  scanCnt false s.data

/-- One fragment of a `format!` template: literal text, an escaped
untrusted value, or a formatted number. -/
inductive Frag where
  | lit (s : String)
  | esc (v : String)
  | num (n : Nat)

/-- Render one fragment to script text. -/
def renderFrag : Frag → String
  | Frag.lit s => s
  | Frag.esc v => sql_escape v
  | Frag.num n => decimal n

/-- Render a fragment list to script text. -/
def renderFrags : List Frag → String
  | [] => ""
  | f :: rest => renderFrag f ++ renderFrags rest

/-- The in-literal state after a fragment list, computed from the literal
skeleton alone (escaped values and numbers never change the state). -/
def fragsEnd (b : Bool) : List Frag → Bool
  | [] => b
  | Frag.lit s :: rest => fragsEnd (scanEnd b s.data) rest
  | Frag.esc _ :: rest => fragsEnd b rest
  | Frag.num _ :: rest => fragsEnd b rest

/-- The top-level terminator count of a fragment list, computed from the
literal skeleton alone. -/
def fragsCnt (b : Bool) : List Frag → Nat
  | [] => 0
  | Frag.lit s :: rest => scanCnt b s.data + fragsCnt (scanEnd b s.data) rest
  | Frag.esc _ :: rest => fragsCnt b rest
  | Frag.num _ :: rest => fragsCnt b rest

/-- Safety of a fragment list: every escaped value is substituted at a
position inside a string literal (numbers may appear anywhere). -/
def fragsSafe (b : Bool) : List Frag → Bool
  | [] => true
  | Frag.lit s :: rest => fragsSafe (scanEnd b s.data) rest
  | Frag.esc _ :: rest => b && fragsSafe b rest
  | Frag.num _ :: rest => fragsSafe b rest

/-- The fixed schema header of every script (string literal of the
source, with Rust's line-continuation escapes resolved). -/
def schemaSql : String :=
  "PRAGMA journal_mode=WAL;\nCREATE TABLE IF NOT EXISTS note_index (\ntab_key TEXT PRIMARY KEY,\nfile_path TEXT NOT NULL,\ntitle TEXT NOT NULL,\nbody TEXT NOT NULL,\nword_count INTEGER NOT NULL,\nchar_count INTEGER NOT NULL,\nupdated_unix INTEGER NOT NULL\n);\nCREATE INDEX IF NOT EXISTS idx_note_index_updated ON note_index(updated_unix DESC);\nCREATE VIRTUAL TABLE IF NOT EXISTS note_fts USING fts5(tab_key UNINDEXED, title, body);\nBEGIN IMMEDIATE;\n"

/-- The `format!` template of the loop body as a fragment list: literal
pieces exactly as in the source (line continuations resolved), with the
escaped values and numbers interleaved at their placeholders. -/
def slotFrags (ws : String) (pages : String → Option String) (now : Nat)
    (tab : String) : List Frag :=
  let content := ((pages tab).getD "")
  if blank content then
    [Frag.lit "DELETE FROM note_index WHERE tab_key = '",
     Frag.esc tab,
     Frag.lit "';\nDELETE FROM note_fts WHERE tab_key = '",
     Frag.esc tab,
     Frag.lit "';\n"]
  else
    let title := extract_title content
    let file_path := ws ++ "/" ++ tab ++ ".md"
    [Frag.lit "INSERT INTO note_index(tab_key, file_path, title, body, word_count, char_count, updated_unix)\nVALUES ('",
     Frag.esc tab, Frag.lit "', '",
     Frag.esc file_path, Frag.lit "', '",
     Frag.esc title, Frag.lit "', '",
     Frag.esc content, Frag.lit "', ",
     Frag.num (word_count content), Frag.lit ", ",
     Frag.num content.data.length, Frag.lit ", ",
     Frag.num now,
     Frag.lit ")\nON CONFLICT(tab_key) DO UPDATE SET\nfile_path=excluded.file_path,\ntitle=excluded.title,\nbody=excluded.body,\nword_count=excluded.word_count,\nchar_count=excluded.char_count,\nupdated_unix=excluded.updated_unix;\nDELETE FROM note_fts WHERE tab_key = '",
     Frag.esc tab,
     Frag.lit "';\nINSERT INTO note_fts(tab_key, title, body) VALUES ('",
     Frag.esc tab, Frag.lit "', '",
     Frag.esc title, Frag.lit "', '",
     Frag.esc content,
     Frag.lit "');\n"]

/-- The script text one slot appends. -/
def slotSql (ws : String) (pages : String → Option String) (now : Nat)
    (tab : String) : String :=
  renderFrags (slotFrags ws pages now tab)

/-- The full script text of `sync_workspace_index`: header, then the
loop's `push_str` of each slot's chunk, then `COMMIT;`. -/
def buildScript (ws : String) (pages : String → Option String) (now : Nat) : String :=
  (TAB_KEYS.foldl (fun acc tab => acc ++ slotSql ws pages now tab) schemaSql)
    ++ "COMMIT;\n"

/-- State of the file `{root}/{key}.md` of one slot. -/
inductive FileState where
  | absent
  | readable (content : String)
  | unreadable (err : String)
deriving DecidableEq

/-- Whether a file exists but cannot be read. -/
def isUnreadable (f : FileState) : Bool :=
  match f with
  | FileState.unreadable _ => true
  | _ => false

/-- The filesystem as seen by load/save: whether the root directory
exists, and the per-slot file states (keyed by slot key; the file of
slot `k` lives at `{root}/{k}.md`). -/
structure Workspace where
  dirExists : Bool
  files : String → FileState

/-- The read loop of `load_workspace_pages`: for each slot key in order,
a missing file is skipped, a readable file's content is inserted, and an
unreadable file makes the whole function return the error immediately
(the `?` operator on `fs::read_to_string`). -/
def loadLoop (ws : String) (fs : String → FileState) :
    List String → (String → Option String) → Except String (String → Option String)
  | [], pages => Except.ok pages
  | tab :: rest, pages =>
    match fs tab with
    | FileState.absent => loadLoop ws fs rest pages
    | FileState.readable content =>
      loadLoop ws fs rest (fun k => if k = tab then some content else pages k)
    | FileState.unreadable err =>
      Except.error ("Failed reading " ++ ws ++ "/" ++ tab ++ ".md: " ++ err)

/-- `load_workspace_pages`. The outcome of the index synchronization it
triggers is passed in as `syncOutcome` (the pass runs an external
process); the source logs an `Err` to stderr and returns `Ok(pages)`
either way. -/
def load_workspace_pages (ws : String) (w : Workspace)
    (syncOutcome : Except String Unit) : Except String (String → Option String) :=
  match (if w.dirExists then loadLoop ws w.files TAB_KEYS (fun _ => none)
         else Except.ok (fun _ => none)) with
  | Except.error e => Except.error e
  | Except.ok pages =>
    match syncOutcome with
    | Except.error _ => Except.ok pages
    | Except.ok _ => Except.ok pages

/-- The write loop of `save_workspace_pages`: blank content removes the
slot's file (a no-op when absent), non-blank content overwrites it. The
model filesystem accepts every write and remove, matching the claims'
"primary file operations succeed" situation. -/
def saveLoop (pages : String → Option String) :
    List String → (String → FileState) → (String → FileState)
  | [], fs => fs
  | tab :: rest, fs =>
    let content := ((pages tab).getD "")
    if blank content then
      saveLoop pages rest (fun k => if k = tab then FileState.absent else fs k)
    else
      saveLoop pages rest (fun k => if k = tab then FileState.readable content else fs k)

/-- `save_workspace_pages`: creates the root directory, writes or removes
each slot file, then triggers the index synchronization whose outcome
(`syncOutcome`) is logged and discarded. Returns the updated filesystem
as the new `Workspace`. -/
def save_workspace_pages (ws : String) (w : Workspace)
    (pages : String → Option String) (syncOutcome : Except String Unit) :
    Except String Workspace :=
  let files' := saveLoop pages TAB_KEYS w.files
  match syncOutcome with
  | Except.error _ => Except.ok ⟨true, files'⟩
  | Except.ok _ => Except.ok ⟨true, files'⟩

/-! Scanner lemmas: how the in-literal state and the top-level statement
terminator count behave under concatenation, escaping and numbers. -/

theorem stringData_append (s t : String) : (s ++ t).data = s.data ++ t.data := by
  cases s
  cases t
  rfl

theorem scanEnd_append (b : Bool) (l₁ l₂ : List Char) :
    scanEnd b (l₁ ++ l₂) = scanEnd (scanEnd b l₁) l₂ := by
  induction l₁ generalizing b with
  | nil => rfl
  | cons c cs ih =>
    simp only [List.cons_append, scanEnd]
    by_cases h : c = quoteChar <;> simp [h, ih]

theorem scanCnt_append (b : Bool) (l₁ l₂ : List Char) :
    scanCnt b (l₁ ++ l₂) = scanCnt b l₁ + scanCnt (scanEnd b l₁) l₂ := by
  induction l₁ generalizing b with
  | nil => simp [scanCnt, scanEnd]
  | cons c cs ih =>
    simp only [List.cons_append, scanCnt, scanEnd]
    by_cases h : c = quoteChar <;> simp [h, ih] <;> omega

theorem scanEnd_escape (l : List Char) :
    scanEnd true (sqlEscapeChars l) = true := by
  induction l with
  | nil => rfl
  | cons c cs ih =>
    simp only [sqlEscapeChars]
    by_cases h : c = quoteChar <;> simp [h, scanEnd, ih]

theorem scanCnt_escape (l : List Char) :
    scanCnt true (sqlEscapeChars l) = 0 := by
  induction l with
  | nil => rfl
  | cons c cs ih =>
    simp only [sqlEscapeChars]
    by_cases h : c = quoteChar <;> simp [h, scanCnt, scanEnd, ih]

theorem digitChar_safe (d : Nat) : digitChar d ≠ quoteChar ∧ digitChar d ≠ ';' := by
  unfold digitChar
  split <;> exact ⟨by decide, by decide⟩

theorem decimalAux_safe (fuel : Nat) : ∀ (n : Nat), ∀ c ∈ decimalAux fuel n,
    c ≠ quoteChar ∧ c ≠ ';' := by
  induction fuel with
  | zero => intro n c hc; simp [decimalAux] at hc
  | succ fuel ih =>
    intro n c hc
    simp only [decimalAux] at hc
    by_cases h : n < 10
    · simp [h] at hc
      exact hc ▸ digitChar_safe (n % 10)
    · simp [h, List.mem_append] at hc
      rcases hc with hc | hc
      · exact ih (n / 10) c hc
      · exact hc ▸ digitChar_safe (n % 10)

theorem scanEnd_noSpecial (b : Bool) (l : List Char)
    (h : ∀ c ∈ l, c ≠ quoteChar ∧ c ≠ ';') : scanEnd b l = b := by
  induction l with
  | nil => rfl
  | cons c cs ih =>
    have hc := h c (by simp)
    simp only [scanEnd, if_neg hc.1]
    exact ih (fun x hx => h x (by simp [hx]))

theorem scanCnt_noSpecial (b : Bool) (l : List Char)
    (h : ∀ c ∈ l, c ≠ quoteChar ∧ c ≠ ';') : scanCnt b l = 0 := by
  induction l with
  | nil => rfl
  | cons c cs ih =>
    have hc := h c (by simp)
    simp only [scanCnt, if_neg hc.1]
    have : ¬(c = ';' ∧ b = false) := fun hx => hc.2 hx.1
    simp only [if_neg this, Nat.zero_add]
    exact ih (fun x hx => h x (by simp [hx]))

theorem renderFrags_scan (l : List Frag) : ∀ (b : Bool), fragsSafe b l = true →
    scanEnd b (renderFrags l).data = fragsEnd b l ∧
    scanCnt b (renderFrags l).data = fragsCnt b l := by
  induction l with
  | nil => intro b _; exact ⟨rfl, rfl⟩
  | cons f rest ih =>
    intro b hsafe
    cases f with
    | lit s =>
      simp only [fragsSafe] at hsafe
      have hr := ih (scanEnd b s.data) hsafe
      simp only [renderFrags, renderFrag, stringData_append, scanEnd_append,
        scanCnt_append, fragsEnd, fragsCnt, hr.1, hr.2]
      simp
    | esc v =>
      simp only [fragsSafe, Bool.and_eq_true] at hsafe
      obtain ⟨hb, hsafe⟩ := hsafe
      subst hb
      have hr := ih true hsafe
      have hdata : (renderFrag (Frag.esc v)).data = sqlEscapeChars v.data := rfl
      simp only [renderFrags, stringData_append, scanEnd_append, scanCnt_append,
        hdata, scanEnd_escape, scanCnt_escape, fragsEnd, fragsCnt, hr.1, hr.2]
      simp
    | num n =>
      simp only [fragsSafe] at hsafe
      have hr := ih b hsafe
      have hdata : (renderFrag (Frag.num n)).data = decimalAux (n + 1) n := rfl
      have hend := scanEnd_noSpecial b (decimalAux (n + 1) n) (decimalAux_safe (n + 1) n)
      have hcnt := scanCnt_noSpecial b (decimalAux (n + 1) n) (decimalAux_safe (n + 1) n)
      simp only [renderFrags, stringData_append, scanEnd_append, scanCnt_append,
        hdata, hend, hcnt, fragsEnd, fragsCnt, hr.1, hr.2]
      simp

theorem renderFrags_scan_eval (l : List Frag) (n : Nat)
    (hsafe : fragsSafe false l = true) (hend : fragsEnd false l = false)
    (hcnt : fragsCnt false l = n) :
    scanEnd false (renderFrags l).data = false ∧
    scanCnt false (renderFrags l).data = n := by
  have h := renderFrags_scan l false hsafe
  exact ⟨h.1.trans hend, h.2.trans hcnt⟩

theorem slotSql_scan (ws : String) (pages : String → Option String) (now : Nat)
    (tab : String) :
    scanEnd false (slotSql ws pages now tab).data = false ∧
    scanCnt false (slotSql ws pages now tab).data =
      (if blank ((pages tab).getD "") then 2 else 3) := by
  unfold slotSql slotFrags
  by_cases hb : blank ((pages tab).getD "") <;>
    simp only [hb, if_true, if_false, Bool.false_eq_true] <;>
    exact renderFrags_scan_eval _ _ rfl rfl rfl

theorem foldSlots_scan (ws : String) (pages : String → Option String) (now : Nat) :
    ∀ (tabs : List String) (s : String), scanEnd false s.data = false →
    scanEnd false ((tabs.foldl (fun acc tab => acc ++ slotSql ws pages now tab) s)).data
        = false ∧
    scanCnt false ((tabs.foldl (fun acc tab => acc ++ slotSql ws pages now tab) s)).data
        = scanCnt false s.data
          + (tabs.map (fun tab => if blank ((pages tab).getD "") then 2 else 3)).sum := by
  intro tabs
  induction tabs with
  | nil => intro s hs; simp [hs]
  | cons t rest ih =>
    intro s hs
    have hslot := slotSql_scan ws pages now t
    have hs' : scanEnd false (s ++ slotSql ws pages now t).data = false := by
      rw [stringData_append, scanEnd_append, hs, hslot.1]
    have hcnt' : scanCnt false (s ++ slotSql ws pages now t).data
        = scanCnt false s.data + (if blank ((pages t).getD "") then 2 else 3) := by
      rw [stringData_append, scanCnt_append, hs, hslot.2]
    have hr := ih (s ++ slotSql ws pages now t) hs'
    simp only [List.foldl_cons, List.map_cons, List.sum_cons]
    exact ⟨hr.1, by rw [hr.2, hcnt']; omega⟩

theorem stmtCount_buildScript (ws : String) (pages : String → Option String)
    (now : Nat) :
    stmtCount (buildScript ws pages now) =
      6 + (TAB_KEYS.map (fun tab => if blank ((pages tab).getD "") then 2 else 3)).sum := by
  have hschema : scanEnd false schemaSql.data = false := by decide
  have hschemaCnt : scanCnt false schemaSql.data = 5 := by decide
  have h := foldSlots_scan ws pages now TAB_KEYS schemaSql hschema
  unfold stmtCount buildScript
  rw [stringData_append, scanCnt_append, h.2, h.1, hschemaCnt]
  have : scanCnt false ("COMMIT;\n" : String).data = 1 := by decide
  rw [this]
  omega

/-! Row-level semantics of the pass: projection lemmas, the slot-by-slot
fold form, and closed forms for `note_index` and `note_fts`. -/

@[simp] theorem note_index_dbDeleteFts (db : IndexDb) (key k : String) :
    (dbDeleteFts db key).note_index k = db.note_index k := rfl

@[simp] theorem note_index_dbInsertFts (db : IndexDb) (row : FtsRow) (k : String) :
    (dbInsertFts db row).note_index k = db.note_index k := rfl

theorem note_index_dbDeleteIndex (db : IndexDb) (key k : String) :
    (dbDeleteIndex db key).note_index k = if k = key then none else db.note_index k := rfl

theorem note_index_dbUpsertIndex (db : IndexDb) (key k : String) (r : NoteRecord) :
    (dbUpsertIndex db key r).note_index k =
      if k = key then some r else db.note_index k := rfl

@[simp] theorem note_fts_dbDeleteIndex (db : IndexDb) (key : String) :
    (dbDeleteIndex db key).note_fts = db.note_fts := rfl

@[simp] theorem note_fts_dbUpsertIndex (db : IndexDb) (key : String) (r : NoteRecord) :
    (dbUpsertIndex db key r).note_fts = db.note_fts := rfl

theorem note_fts_dbDeleteFts (db : IndexDb) (key : String) :
    (dbDeleteFts db key).note_fts = db.note_fts.filter (fun r => ¬ r.tab_key = key) := rfl

theorem note_fts_dbInsertFts (db : IndexDb) (row : FtsRow) :
    (dbInsertFts db row).note_fts = Multiset.cons row db.note_fts := rfl

theorem applyStmts_append (a b : List SqlStmt) (db : IndexDb) :
    applyStmts (a ++ b) db = applyStmts b (applyStmts a db) := by
  simp [applyStmts, List.foldl_append]

theorem applyStmts_foldlAcc (f : String → List SqlStmt) :
    ∀ (tabs : List String) (init : List SqlStmt) (db : IndexDb),
    applyStmts (tabs.foldl (fun acc t => acc ++ f t) init) db =
      tabs.foldl (fun d t => applyStmts (f t) d) (applyStmts init db) := by
  intro tabs
  induction tabs with
  | nil => intro init db; rfl
  | cons t rest ih =>
    intro init db
    simp only [List.foldl_cons]
    rw [ih, applyStmts_append]

theorem syncPass_eq_fold (ws : String) (pages : String → Option String) (now : Nat)
    (db : IndexDb) :
    syncPass ws pages now db = applyTabsFold ws pages now TAB_KEYS db := by
  unfold syncPass passDml applyTabsFold
  rw [applyStmts_foldlAcc]
  rfl

theorem slot_noteIndex (ws : String) (pages : String → Option String) (now : Nat)
    (tab : String) (db : IndexDb) (k : String) :
    (applyStmts (slotStmts ws pages now tab) db).note_index k =
      if k = tab then slotRecord ws pages now tab else db.note_index k := by
  unfold slotStmts slotRecord
  by_cases hb : blank ((pages tab).getD "") <;>
    simp [hb, applyStmts, stmtRowEffect, note_index_dbDeleteIndex,
      note_index_dbUpsertIndex]

theorem fold_noteIndex_notMem (ws : String) (pages : String → Option String)
    (now : Nat) : ∀ (tabs : List String) (db : IndexDb) (k : String), k ∉ tabs →
    (applyTabsFold ws pages now tabs db).note_index k = db.note_index k := by
  intro tabs
  induction tabs with
  | nil => intro db k _; rfl
  | cons t rest ih =>
    intro db k h
    have hk : k ≠ t := fun he => h (he ▸ List.mem_cons_self t rest)
    have hr : k ∉ rest := fun he => h (List.mem_cons_of_mem t he)
    show (applyTabsFold ws pages now rest
      (applyStmts (slotStmts ws pages now t) db)).note_index k = db.note_index k
    rw [ih _ k hr, slot_noteIndex, if_neg hk]

theorem fold_noteIndex_mem (ws : String) (pages : String → Option String)
    (now : Nat) : ∀ (tabs : List String) (db : IndexDb) (k : String), k ∈ tabs →
    (applyTabsFold ws pages now tabs db).note_index k = slotRecord ws pages now k := by
  intro tabs
  induction tabs with
  | nil => intro db k h; simp at h
  | cons t rest ih =>
    intro db k h
    show (applyTabsFold ws pages now rest
      (applyStmts (slotStmts ws pages now t) db)).note_index k = _
    by_cases hr : k ∈ rest
    · exact ih _ k hr
    · have hk : k = t := by
        rcases List.mem_cons.mp h with h1 | h1
        · exact h1
        · exact absurd h1 hr
      rw [fold_noteIndex_notMem ws pages now rest _ k hr, slot_noteIndex, if_pos hk, hk]

theorem slot_fts (ws : String) (pages : String → Option String) (now : Nat)
    (tab : String) (db : IndexDb) :
    (applyStmts (slotStmts ws pages now tab) db).note_fts =
      db.note_fts.filter (fun r => ¬ r.tab_key = tab) + slotFts pages tab := by
  unfold slotStmts slotFts
  by_cases hb : blank ((pages tab).getD "")
  · simp [hb, applyStmts, stmtRowEffect, note_fts_dbDeleteFts]
  · simp only [hb, Bool.false_eq_true, if_false, applyStmts, List.foldl_cons,
      List.foldl_nil, stmtRowEffect, note_fts_dbInsertFts, note_fts_dbDeleteFts,
      note_fts_dbUpsertIndex]
    rw [add_comm, Multiset.singleton_add]

theorem rowsFor_key (pages : String → Option String) :
    ∀ (tabs : List String) (r : FtsRow), r ∈ rowsFor pages tabs → r.tab_key ∈ tabs := by
  intro tabs
  induction tabs with
  | nil => intro r hr; simp [rowsFor] at hr
  | cons t rest ih =>
    intro r hr
    rcases Multiset.mem_add.mp hr with h | h
    · unfold slotFts at h
      by_cases hb : blank ((pages t).getD "")
      · simp [hb] at h
      · simp [hb] at h
        simp [h]
    · exact List.mem_cons_of_mem t (ih r h)

theorem fold_fts (ws : String) (pages : String → Option String) (now : Nat) :
    ∀ (tabs : List String), tabs.Nodup → ∀ (db : IndexDb),
    (applyTabsFold ws pages now tabs db).note_fts =
      db.note_fts.filter (fun r => r.tab_key ∉ tabs) + rowsFor pages tabs := by
  intro tabs
  induction tabs with
  | nil =>
    intro _ db
    show db.note_fts = _
    rw [rowsFor, add_zero, Multiset.filter_eq_self.mpr]
    intro a _
    simp
  | cons t rest ih =>
    intro hnd db
    obtain ⟨htr, hrest⟩ := List.nodup_cons.mp hnd
    show (applyTabsFold ws pages now rest
      (applyStmts (slotStmts ws pages now t) db)).note_fts = _
    rw [ih hrest, slot_fts, Multiset.filter_add]
    have h1 : (db.note_fts.filter (fun r => ¬ r.tab_key = t)).filter
        (fun r => r.tab_key ∉ rest) =
        db.note_fts.filter (fun r => r.tab_key ∉ t :: rest) := by
      rw [Multiset.filter_filter]
      refine Multiset.filter_congr ?_
      intro a _
      simp [List.mem_cons, not_or, and_comm]
    have h2 : (slotFts pages t).filter (fun r => r.tab_key ∉ rest) = slotFts pages t := by
      unfold slotFts
      by_cases hb : blank ((pages t).getD "")
      · simp [hb]
      · simp only [hb, Bool.false_eq_true, if_false]
        rw [Multiset.filter_singleton, if_pos htr]
    rw [h1, h2, rowsFor, add_assoc]

/-! The script executor (modelled sqlite3 semantics): a crashed or
rejected script commits either nothing or everything. -/

theorem execStmt_dml (c cur : IndexDb) (s : SqlStmt) (h : isDml s = true) :
    execStmt ⟨c, cur, true⟩ s = ⟨c, stmtRowEffect s cur, true⟩ := by
  cases s <;> simp [isDml] at h <;> rfl

theorem execDml_split (l : List SqlStmt) (hl : ∀ s ∈ l, isDml s = true) :
    ∀ (db cur : IndexDb) (p q : List SqlStmt), l ++ [SqlStmt.commit] = p ++ q →
    (p.foldl execStmt ⟨db, cur, true⟩).committed
      = if q = [] then applyStmts l cur else db := by
  induction l with
  | nil =>
    intro db cur p q h
    cases p with
    | nil =>
      simp only [List.nil_append] at h
      subst h
      simp [ExecState.committed]
    | cons a tl =>
      simp only [List.nil_append, List.cons_append] at h
      injection h with h1 h2
      subst h1
      have h3 := List.append_eq_nil.mp h2.symm
      obtain ⟨rfl, rfl⟩ := h3
      simp [applyStmts, execStmt, ExecState.committed]
  | cons s rest ih =>
    intro db cur p q h
    have hs : isDml s = true := hl s (by simp)
    have hrest : ∀ x ∈ rest, isDml x = true := fun x hx => hl x (by simp [hx])
    cases p with
    | nil =>
      simp only [List.nil_append] at h
      subst h
      simp [ExecState.committed]
    | cons a tl =>
      simp only [List.cons_append] at h
      injection h with h1 h2
      subst h1
      simp only [List.foldl_cons]
      rw [execStmt_dml db cur s hs]
      exact ih hrest db (stmtRowEffect s cur) tl q h2

theorem mem_foldl_append {α β : Type} (f : β → List α) :
    ∀ (tabs : List β) (init : List α) (s : α),
    s ∈ tabs.foldl (fun acc t => acc ++ f t) init →
    s ∈ init ∨ ∃ t ∈ tabs, s ∈ f t := by
  intro tabs
  induction tabs with
  | nil => intro init s hs; exact Or.inl hs
  | cons t rest ih =>
    intro init s hs
    rcases ih (init ++ f t) s hs with h | ⟨t', ht', hs'⟩
    · rcases List.mem_append.mp h with h | h
      · exact Or.inl h
      · exact Or.inr ⟨t, List.mem_cons_self t rest, h⟩
    · exact Or.inr ⟨t', List.mem_cons_of_mem t ht', hs'⟩

theorem passDml_isDml (ws : String) (pages : String → Option String) (now : Nat) :
    ∀ s ∈ passDml ws pages now, isDml s = true := by
  intro s hs
  rcases mem_foldl_append _ TAB_KEYS [] s hs with h | ⟨t, _, ht⟩
  · simp at h
  · unfold slotStmts at ht
    by_cases hb : blank ((pages t).getD "")
    · simp [hb] at ht
      rcases ht with rfl | rfl <;> rfl
    · simp [hb] at ht
      rcases ht with rfl | rfl | rfl <;> rfl

theorem passDml_key (ws : String) (pages : String → Option String) (now : Nat) :
    ∀ s ∈ passDml ws pages now, ∃ t ∈ TAB_KEYS, stmtKey s = some t := by
  intro s hs
  rcases mem_foldl_append _ TAB_KEYS [] s hs with h | ⟨t, htm, ht⟩
  · simp at h
  · refine ⟨t, htm, ?_⟩
    unfold slotStmts at ht
    by_cases hb : blank ((pages t).getD "")
    · simp [hb] at ht
      rcases ht with rfl | rfl <;> rfl
    · simp [hb] at ht
      rcases ht with rfl | rfl | rfl <;> rfl

/-- Claim C1: every synchronization pass is atomic. The emitted script is
schema statements, `BEGIN IMMEDIATE`, the per-slot delete/upsert DML, and
a final `COMMIT`; executing any initial segment `p` of the script (the
part that ran before a crash or a rejected statement stopped it) leaves
the durable record and shadow tables exactly at their pre-pass state
unless the segment is the whole script, in which case the pass's full
effect is committed. -/
theorem hermes_c1_pass_atomicity (ws : String) (pages : String → Option String)
    (now : Nat) (db : IndexDb) (p q : List SqlStmt)
    (h : passStmts ws pages now = p ++ q) :
    runScriptPart p db = if q = [] then syncPass ws pages now db else db := by
  unfold passStmts at h
  cases p with
  | nil =>
    simp only [List.nil_append] at h
    subst h
    rw [if_neg (by simp)]
    rfl
  | cons a1 p1 =>
    simp only [List.cons_append] at h
    injection h with e1 h
    subst e1
    cases p1 with
    | nil =>
      simp only [List.nil_append] at h
      subst h
      rw [if_neg (by simp)]
      rfl
    | cons a2 p2 =>
      simp only [List.cons_append] at h
      injection h with e2 h
      subst e2
      cases p2 with
      | nil =>
        simp only [List.nil_append] at h
        subst h
        rw [if_neg (by simp)]
        rfl
      | cons a3 p3 =>
        simp only [List.cons_append] at h
        injection h with e3 h
        subst e3
        cases p3 with
        | nil =>
          simp only [List.nil_append] at h
          subst h
          rw [if_neg (by simp)]
          rfl
        | cons a4 p4 =>
          simp only [List.cons_append] at h
          injection h with e4 h
          subst e4
          cases p4 with
          | nil =>
            simp only [List.nil_append] at h
            subst h
            rw [if_neg (by simp)]
            rfl
          | cons a5 p5 =>
            simp only [List.cons_append] at h
            injection h with e5 h
            subst e5
            show (p5.foldl execStmt ⟨db, db, true⟩).committed = _
            exact execDml_split (passDml ws pages now)
              (passDml_isDml ws pages now) db db p5 q h

/-- Witness for C1 at a concrete pass: running the whole script commits
the full pass. -/
theorem hermes_c1_witness :
    runScriptPart (passStmts "w" (fun _ => none) 0) ⟨fun _ => none, 0⟩ =
      if ([] : List SqlStmt) = [] then syncPass "w" (fun _ => none) 0 ⟨fun _ => none, 0⟩
      else ⟨fun _ => none, 0⟩ :=
  hermes_c1_pass_atomicity "w" (fun _ => none) 0 ⟨fun _ => none, 0⟩ _ [] (by simp)

/-! Lemmas about the read and write loops of load/save. -/

theorem loadLoop_exists_ok (ws : String) (fs : String → FileState) :
    ∀ (tabs : List String) (acc : String → Option String),
    (∀ t ∈ tabs, isUnreadable (fs t) = false) →
    ∃ m, loadLoop ws fs tabs acc = Except.ok m := by
  intro tabs
  induction tabs with
  | nil => intro acc _; exact ⟨acc, rfl⟩
  | cons a rest ih =>
    intro acc h
    have ha := h a (List.mem_cons_self a rest)
    have hrest : ∀ t ∈ rest, isUnreadable (fs t) = false :=
      fun t ht => h t (List.mem_cons_of_mem a ht)
    cases hfa : fs a with
    | absent =>
      simp only [loadLoop, hfa]
      exact ih acc hrest
    | readable c =>
      simp only [loadLoop, hfa]
      exact ih _ hrest
    | unreadable err =>
      rw [hfa] at ha
      simp [isUnreadable] at ha

theorem loadLoop_err (ws : String) (fs : String → FileState) :
    ∀ (tabs : List String) (acc : String → Option String) (tab : String),
    tab ∈ tabs → isUnreadable (fs tab) = true →
    ∃ e, loadLoop ws fs tabs acc = Except.error e := by
  intro tabs
  induction tabs with
  | nil => intro acc tab h _; simp at h
  | cons a rest ih =>
    intro acc tab htab hun
    cases hfa : fs a with
    | absent =>
      simp only [loadLoop, hfa]
      rcases List.mem_cons.mp htab with rfl | hr
      · rw [hfa] at hun; simp [isUnreadable] at hun
      · exact ih acc tab hr hun
    | readable c =>
      simp only [loadLoop, hfa]
      rcases List.mem_cons.mp htab with rfl | hr
      · rw [hfa] at hun; simp [isUnreadable] at hun
      · exact ih _ tab hr hun
    | unreadable err =>
      refine ⟨"Failed reading " ++ ws ++ "/" ++ a ++ ".md: " ++ err, ?_⟩
      simp [loadLoop, hfa]

theorem loadLoop_notMem (ws : String) (fs : String → FileState) :
    ∀ (tabs : List String) (acc : String → Option String) (m : String → Option String)
    (k : String), loadLoop ws fs tabs acc = Except.ok m → k ∉ tabs → m k = acc k := by
  intro tabs
  induction tabs with
  | nil =>
    intro acc m k hm _
    injection hm with h
    rw [← h]
  | cons a rest ih =>
    intro acc m k hm hk
    have hka : k ≠ a := fun he => hk (he ▸ List.mem_cons_self a rest)
    have hkr : k ∉ rest := fun he => hk (List.mem_cons_of_mem a he)
    cases hfa : fs a with
    | absent =>
      simp only [loadLoop, hfa] at hm
      exact ih acc m k hm hkr
    | readable c =>
      simp only [loadLoop, hfa] at hm
      have := ih _ m k hm hkr
      rw [this, if_neg hka]
    | unreadable err =>
      simp [loadLoop, hfa] at hm

theorem loadLoop_readable (ws : String) (fs : String → FileState) :
    ∀ (tabs : List String) (acc : String → Option String) (m : String → Option String)
    (k : String) (c : String), loadLoop ws fs tabs acc = Except.ok m →
    k ∈ tabs → fs k = FileState.readable c → m k = some c := by
  intro tabs
  induction tabs with
  | nil => intro acc m k c _ hk _; simp at hk
  | cons a rest ih =>
    intro acc m k c hm hk hfk
    cases hfa : fs a with
    | absent =>
      simp only [loadLoop, hfa] at hm
      rcases List.mem_cons.mp hk with rfl | hr
      · rw [hfa] at hfk; simp at hfk
      · exact ih acc m k c hm hr hfk
    | readable c' =>
      simp only [loadLoop, hfa] at hm
      by_cases hkr : k ∈ rest
      · exact ih _ m k c hm hkr hfk
      · rcases List.mem_cons.mp hk with rfl | hr
        · have hnm := loadLoop_notMem ws fs rest _ m k hm hkr
          rw [hnm]
          rw [hfa] at hfk
          injection hfk with h
          rw [h]
          simp
        · exact absurd hr hkr
    | unreadable err =>
      simp [loadLoop, hfa] at hm

theorem loadLoop_absent (ws : String) (fs : String → FileState) :
    ∀ (tabs : List String) (acc : String → Option String) (m : String → Option String)
    (k : String), loadLoop ws fs tabs acc = Except.ok m →
    fs k = FileState.absent → m k = acc k := by
  intro tabs
  induction tabs with
  | nil =>
    intro acc m k hm _
    injection hm with h
    rw [← h]
  | cons a rest ih =>
    intro acc m k hm hfk
    cases hfa : fs a with
    | absent =>
      simp only [loadLoop, hfa] at hm
      exact ih acc m k hm hfk
    | readable c' =>
      simp only [loadLoop, hfa] at hm
      have := ih _ m k hm hfk
      rw [this]
      by_cases hka : k = a
      · subst hka
        rw [hfa] at hfk
        simp at hfk
      · rw [if_neg hka]
    | unreadable err =>
      simp [loadLoop, hfa] at hm

theorem saveLoop_apply (pages : String → Option String) :
    ∀ (tabs : List String) (fs : String → FileState) (k : String),
    saveLoop pages tabs fs k =
      if k ∈ tabs then
        (if blank ((pages k).getD "") then FileState.absent
         else FileState.readable ((pages k).getD ""))
      else fs k := by
  intro tabs
  induction tabs with
  | nil => intro fs k; simp [saveLoop]
  | cons t rest ih =>
    intro fs k
    by_cases hb : blank ((pages t).getD "")
    · simp only [saveLoop, hb, if_true]
      rw [ih]
      by_cases hkr : k ∈ rest
      · simp [hkr, List.mem_cons]
      · by_cases hkt : k = t
        · subst hkt
          simp [hkr, hb]
        · simp [hkr, hkt, List.mem_cons]
    · simp only [saveLoop, hb, Bool.false_eq_true, if_false]
      rw [ih]
      by_cases hkr : k ∈ rest
      · simp [hkr, List.mem_cons]
      · by_cases hkt : k = t
        · subst hkt
          simp [hkr, hb]
        · simp [hkr, hkt, List.mem_cons]

/-- Counterexample to claim C2 as stated: with the first slot's file
unreadable and the second slot's file perfectly readable, the load
operation does not return the readable slot's content — it aborts with
the read error (the `?` operator propagates the first failure). -/
theorem hermes_c2_counterexample :
    load_workspace_pages "ws"
      ⟨true, fun k => if k = "coral" then FileState.unreadable "permission denied"
        else if k = "amber" then FileState.readable "hello" else FileState.absent⟩
      (Except.ok ()) =
    Except.error "Failed reading ws/coral.md: permission denied" := by
  rfl

/-- Claim C2, amended: a read failure on an existing slot file is not
skipped per offending file — it aborts the whole load. The load returns
a mapping exactly when every enumerated slot file is readable or absent;
if any slot's file is unreadable, the whole operation fails and no slot
contents are returned. -/
theorem hermes_c2_load_aborts_on_unreadable (ws : String) (w : Workspace)
    (so : Except String Unit) (hdir : w.dirExists = true) :
    (∃ m, load_workspace_pages ws w so = Except.ok m) ↔
      (∀ tab ∈ TAB_KEYS, isUnreadable (w.files tab) = false) := by
  constructor
  · rintro ⟨m, hm⟩ tab htab
    by_contra hbad
    have hun : isUnreadable (w.files tab) = true := by
      revert hbad
      cases isUnreadable (w.files tab) <;> simp
    obtain ⟨e, he⟩ := loadLoop_err ws w.files TAB_KEYS (fun _ => none) tab htab hun
    unfold load_workspace_pages at hm
    rw [if_pos hdir, he] at hm
    simp at hm
  · intro hall
    obtain ⟨m, hm⟩ := loadLoop_exists_ok ws w.files TAB_KEYS (fun _ => none) hall
    refine ⟨m, ?_⟩
    unfold load_workspace_pages
    rw [if_pos hdir, hm]
    cases so <;> rfl

/-- Witness for the amended C2 at a workspace whose slot files are all
readable: the load succeeds. -/
theorem hermes_c2_witness :
    (∃ m, load_workspace_pages "ws" ⟨true, fun _ => FileState.readable "x"⟩
        (Except.ok ()) = Except.ok m) ↔
      (∀ tab ∈ TAB_KEYS,
        isUnreadable ((Workspace.mk true (fun _ => FileState.readable "x")).files tab)
          = false) :=
  hermes_c2_load_aborts_on_unreadable "ws" ⟨true, fun _ => FileState.readable "x"⟩
    (Except.ok ()) rfl

/-- Claim C6: for a snapshot over the enumerated slot keys, `save`
followed by `load` returns exactly the snapshot restricted to its
entries that are non-blank after trimming; blank (or absent) entries are
absent from the loaded mapping. -/
theorem hermes_c6_round_trip (ws : String) (w : Workspace)
    (pages : String → Option String) (so so' : Except String Unit)
    (hdom : ∀ k, k ∉ TAB_KEYS → pages k = none) :
    ∃ w' m, save_workspace_pages ws w pages so = Except.ok w'
      ∧ load_workspace_pages ws w' so' = Except.ok m
      ∧ ∀ k, m k = (pages k).bind (fun c => if blank c then none else some c) := by
  have hsave : save_workspace_pages ws w pages so
      = Except.ok ⟨true, saveLoop pages TAB_KEYS w.files⟩ := by
    unfold save_workspace_pages
    cases so <;> rfl
  have hnor : ∀ t ∈ TAB_KEYS, isUnreadable (saveLoop pages TAB_KEYS w.files t) = false := by
    intro t ht
    rw [saveLoop_apply, if_pos ht]
    by_cases hb : blank ((pages t).getD "") <;> simp [hb, isUnreadable]
  obtain ⟨m, hm⟩ := loadLoop_exists_ok ws (saveLoop pages TAB_KEYS w.files)
    TAB_KEYS (fun _ => none) hnor
  have hload : load_workspace_pages ws ⟨true, saveLoop pages TAB_KEYS w.files⟩ so'
      = Except.ok m := by
    unfold load_workspace_pages
    rw [if_pos rfl, hm]
    cases so' <;> rfl
  refine ⟨_, m, hsave, hload, ?_⟩
  intro k
  by_cases hk : k ∈ TAB_KEYS
  · have hfk := saveLoop_apply pages TAB_KEYS w.files k
    rw [if_pos hk] at hfk
    by_cases hb : blank ((pages k).getD "")
    · rw [if_pos hb] at hfk
      have hmk := loadLoop_absent ws (saveLoop pages TAB_KEYS w.files)
        TAB_KEYS (fun _ => none) m k hm hfk
      rw [hmk]
      cases hpk : pages k with
      | none => rfl
      | some c =>
        rw [hpk] at hb
        simp only [Option.getD_some] at hb
        simp [hb]
    · rw [if_neg hb] at hfk
      have hmk := loadLoop_readable ws (saveLoop pages TAB_KEYS w.files)
        TAB_KEYS (fun _ => none) m k ((pages k).getD "") hm hk hfk
      rw [hmk]
      cases hpk : pages k with
      | none =>
        rw [hpk] at hb
        exact absurd (by decide : blank ((none : Option String).getD "") = true) hb
      | some c =>
        rw [hpk] at hb
        simp only [Option.getD_some] at hb
        simp [hb]
  · have hmk := loadLoop_notMem ws (saveLoop pages TAB_KEYS w.files)
      TAB_KEYS (fun _ => none) m k hm hk
    rw [hmk, hdom k hk]
    rfl

/-- Witness for C6: a snapshot with one non-blank slot and one blank slot
round-trips to the single non-blank entry. -/
theorem hermes_c6_witness :
    ∃ w' m, save_workspace_pages "ws" ⟨false, fun _ => FileState.absent⟩
        (fun k => if k = "coral" then some "hi" else if k = "amber" then some "  " else none)
        (Except.ok ()) = Except.ok w'
      ∧ load_workspace_pages "ws" w' (Except.ok ()) = Except.ok m
      ∧ ∀ k, m k =
          ((fun k => if k = "coral" then some "hi" else if k = "amber" then some "  " else none) k).bind
            (fun c => if blank c then none else some c) :=
  hermes_c6_round_trip "ws" ⟨false, fun _ => FileState.absent⟩
    (fun k => if k = "coral" then some "hi" else if k = "amber" then some "  " else none)
    (Except.ok ()) (Except.ok ())
    (by
      intro k hk
      by_cases h1 : k = "coral"
      · exact absurd (h1 ▸ (by decide : ("coral" : String) ∈ TAB_KEYS)) hk
      · by_cases h2 : k = "amber"
        · exact absurd (h2 ▸ (by decide : ("amber" : String) ∈ TAB_KEYS)) hk
        · simp [h1, h2])

/-- Claim C9: an index-sync failure is never surfaced by load or save:
their results do not depend on the synchronization outcome at all, and
when the primary file operations succeed they return their success
result whatever the pass did. -/
theorem hermes_c9_sync_errors_swallowed (ws : String) (w : Workspace)
    (pages : String → Option String) (so so' : Except String Unit) :
    load_workspace_pages ws w so = load_workspace_pages ws w so'
    ∧ save_workspace_pages ws w pages so = save_workspace_pages ws w pages so'
    ∧ ((∀ tab ∈ TAB_KEYS, isUnreadable (w.files tab) = false) →
        ∃ m, load_workspace_pages ws w so = Except.ok m)
    ∧ ∃ w', save_workspace_pages ws w pages so = Except.ok w' := by
  refine ⟨?_, ?_, ?_, ?_⟩
  · unfold load_workspace_pages
    cases hE : (if w.dirExists then loadLoop ws w.files TAB_KEYS (fun _ => none)
        else Except.ok (fun _ => none)) with
    | error e => rfl
    | ok pages' => cases so <;> cases so' <;> rfl
  · unfold save_workspace_pages
    cases so <;> cases so' <;> rfl
  · intro hall
    by_cases hd : w.dirExists
    · obtain ⟨m, hm⟩ := loadLoop_exists_ok ws w.files TAB_KEYS (fun _ => none) hall
      refine ⟨m, ?_⟩
      unfold load_workspace_pages
      rw [if_pos hd, hm]
      cases so <;> rfl
    · refine ⟨(fun _ => none), ?_⟩
      unfold load_workspace_pages
      rw [if_neg hd]
      cases so <;> rfl
  · unfold save_workspace_pages
    cases so
    · exact ⟨_, rfl⟩
    · exact ⟨_, rfl⟩

/-- Witness for C9: with readable files, load and save succeed and their
results are the same whether the pass failed or succeeded. -/
theorem hermes_c9_witness :
    load_workspace_pages "ws" ⟨true, fun _ => FileState.absent⟩ (Except.error "boom")
      = load_workspace_pages "ws" ⟨true, fun _ => FileState.absent⟩ (Except.ok ())
    ∧ (∃ m, load_workspace_pages "ws" ⟨true, fun _ => FileState.absent⟩
        (Except.error "boom") = Except.ok m)
    ∧ ∃ w', save_workspace_pages "ws" ⟨true, fun _ => FileState.absent⟩
        (fun _ => none) (Except.error "boom") = Except.ok w' := by
  have h := hermes_c9_sync_errors_swallowed "ws" ⟨true, fun _ => FileState.absent⟩
    (fun _ => none) (Except.error "boom") (Except.ok ())
  exact ⟨h.1, h.2.2.1 (by decide), h.2.2.2⟩

/-- Claim C10: keys outside the five enumerated slot keys are ignored
entirely: the pass leaves their `note_index` row and their `note_fts`
rows unchanged and emits no statement addressing them, save touches no
file of theirs, and load never returns such a key. -/
theorem hermes_c10_unknown_keys_ignored (k : String) (hk : k ∉ TAB_KEYS)
    (ws : String) (pages : String → Option String) (now : Nat) (db : IndexDb)
    (w : Workspace) (so : Except String Unit) :
    (syncPass ws pages now db).note_index k = db.note_index k
    ∧ (syncPass ws pages now db).note_fts.filter (fun r => r.tab_key = k)
        = db.note_fts.filter (fun r => r.tab_key = k)
    ∧ (∀ s ∈ passDml ws pages now, stmtKey s ≠ some k)
    ∧ saveLoop pages TAB_KEYS w.files k = w.files k
    ∧ (∀ m, load_workspace_pages ws w so = Except.ok m → m k = none) := by
  refine ⟨?_, ?_, ?_, ?_, ?_⟩
  · rw [syncPass_eq_fold]
    exact fold_noteIndex_notMem ws pages now TAB_KEYS db k hk
  · rw [syncPass_eq_fold, fold_fts ws pages now TAB_KEYS (by decide) db,
      Multiset.filter_add]
    have h0 : (rowsFor pages TAB_KEYS).filter (fun r => r.tab_key = k) = 0 := by
      rw [Multiset.filter_eq_nil]
      intro r hr he
      exact hk (he ▸ rowsFor_key pages TAB_KEYS r hr)
    rw [h0, add_zero, Multiset.filter_filter]
    refine Multiset.filter_congr ?_
    intro a _
    constructor
    · rintro ⟨h1, _⟩; exact h1
    · intro h1; exact ⟨h1, fun hmem => hk (h1 ▸ hmem)⟩
  · intro s hs he
    obtain ⟨t, htm, hkey⟩ := passDml_key ws pages now s hs
    rw [hkey] at he
    injection he with he'
    exact hk (he' ▸ htm)
  · rw [saveLoop_apply, if_neg hk]
  · intro m hm
    unfold load_workspace_pages at hm
    by_cases hd : w.dirExists
    · rw [if_pos hd] at hm
      cases hE : loadLoop ws w.files TAB_KEYS (fun _ => none) with
      | error e => rw [hE] at hm; simp at hm
      | ok m' =>
        rw [hE] at hm
        have hm' : m' = m := by
          cases so <;> exact Except.ok.inj hm
        rw [← hm']
        exact loadLoop_notMem ws w.files TAB_KEYS (fun _ => none) m' k hE hk
    · rw [if_neg hd] at hm
      have : (fun _ => (none : Option String)) = m := by
        cases so <;> exact Except.ok.inj hm
      rw [← this]

/-- Witness for C10 at the key "notes", which is not an enumerated slot
key. -/
theorem hermes_c10_witness :
    (syncPass "ws" (fun _ => some "hi") 3 ⟨fun _ => none, 0⟩).note_index "notes"
        = (⟨fun _ => none, 0⟩ : IndexDb).note_index "notes"
    ∧ (syncPass "ws" (fun _ => some "hi") 3 ⟨fun _ => none, 0⟩).note_fts.filter
          (fun r => r.tab_key = "notes")
        = (⟨fun _ => none, 0⟩ : IndexDb).note_fts.filter (fun r => r.tab_key = "notes")
    ∧ (∀ s ∈ passDml "ws" (fun _ => some "hi") 3, stmtKey s ≠ some "notes")
    ∧ saveLoop (fun _ => some "hi") TAB_KEYS
        (Workspace.mk true (fun _ => FileState.absent)).files "notes"
        = (Workspace.mk true (fun _ => FileState.absent)).files "notes"
    ∧ (∀ m, load_workspace_pages "ws" ⟨true, fun _ => FileState.absent⟩ (Except.ok ())
          = Except.ok m → m "notes" = none) :=
  hermes_c10_unknown_keys_ignored "notes" (by decide) "ws" (fun _ => some "hi") 3
    ⟨fun _ => none, 0⟩ ⟨true, fun _ => FileState.absent⟩ (Except.ok ())

/-- Claim C3: after a pass, a `note_index` row exists for an enumerated
slot exactly when the snapshot's content for that slot is non-blank
after trimming (an absent slot counts as empty), whatever the prior
index state. -/
theorem hermes_c3_record_iff_nonblank (ws : String) (pages : String → Option String)
    (now : Nat) (db : IndexDb) (k : String) (hk : k ∈ TAB_KEYS) :
    (syncPass ws pages now db).note_index k ≠ none ↔
      blank ((pages k).getD "") = false := by
  rw [syncPass_eq_fold, fold_noteIndex_mem ws pages now TAB_KEYS db k hk]
  unfold slotRecord
  by_cases hb : blank ((pages k).getD "") <;> simp [hb]

/-- Witness for C3: the "coral" slot with non-blank content gets a row. -/
theorem hermes_c3_witness :
    (syncPass "ws" (fun k => if k = "coral" then some "# Hi" else none) 5
        ⟨fun _ => none, 0⟩).note_index "coral" ≠ none ↔
      blank (((fun k => if k = "coral" then some "# Hi" else none) "coral").getD "")
        = false :=
  hermes_c3_record_iff_nonblank "ws" (fun k => if k = "coral" then some "# Hi" else none)
    5 ⟨fun _ => none, 0⟩ "coral" (by decide)

/-- Claim C8: `word_count "one two  three" = 3`, and the row a pass
stores for a non-blank slot has `word_count` equal to the number of
whitespace-delimited non-empty tokens of the content and `char_count`
equal to its character (not byte) length. -/
theorem hermes_c8_counts (ws : String) (pages : String → Option String)
    (now : Nat) (db : IndexDb) (k : String) (hk : k ∈ TAB_KEYS)
    (hb : blank ((pages k).getD "") = false) :
    word_count "one two  three" = 3
    ∧ (syncPass ws pages now db).note_index k =
        some ⟨ws ++ "/" ++ k ++ ".md", extract_title ((pages k).getD ""),
          (pages k).getD "", word_count ((pages k).getD ""),
          ((pages k).getD "").data.length, now⟩ := by
  refine ⟨by decide, ?_⟩
  rw [syncPass_eq_fold, fold_noteIndex_mem ws pages now TAB_KEYS db k hk]
  unfold slotRecord
  simp only [hb, Bool.false_eq_true, if_false]

/-- Witness for C8 at content "one two  three" in the "coral" slot. -/
theorem hermes_c8_witness :
    word_count "one two  three" = 3
    ∧ (syncPass "ws" (fun k => if k = "coral" then some "one two  three" else none) 9
        ⟨fun _ => none, 0⟩).note_index "coral" =
        some ⟨"ws" ++ "/" ++ "coral" ++ ".md",
          extract_title (((fun k => if k = "coral" then some "one two  three" else none)
            "coral").getD ""),
          ((fun k => if k = "coral" then some "one two  three" else none) "coral").getD "",
          word_count (((fun k => if k = "coral" then some "one two  three" else none)
            "coral").getD ""),
          (((fun k => if k = "coral" then some "one two  three" else none)
            "coral").getD "").data.length, 9⟩ :=
  hermes_c8_counts "ws" (fun k => if k = "coral" then some "one two  three" else none)
    9 ⟨fun _ => none, 0⟩ "coral" (by decide) (by decide)

/-- Counterexample to claim C5 as stated: each pass stamps the records
with its own wall-clock second, so a second pass at a later second
rewrites `updated_unix` and the index state is not identical to the
state after one pass. -/
theorem hermes_c5_counterexample :
    (syncPass "ws" (fun k => if k = "coral" then some "hi" else none) 1
        (syncPass "ws" (fun k => if k = "coral" then some "hi" else none) 0
          ⟨fun _ => none, 0⟩)).note_index "coral"
      ≠ (syncPass "ws" (fun k => if k = "coral" then some "hi" else none) 0
          ⟨fun _ => none, 0⟩).note_index "coral"
    ∧ syncPass "ws" (fun k => if k = "coral" then some "hi" else none) 1
        (syncPass "ws" (fun k => if k = "coral" then some "hi" else none) 0
          ⟨fun _ => none, 0⟩)
      ≠ syncPass "ws" (fun k => if k = "coral" then some "hi" else none) 0
          ⟨fun _ => none, 0⟩ := by
  have hne : (syncPass "ws" (fun k => if k = "coral" then some "hi" else none) 1
        (syncPass "ws" (fun k => if k = "coral" then some "hi" else none) 0
          ⟨fun _ => none, 0⟩)).note_index "coral"
      ≠ (syncPass "ws" (fun k => if k = "coral" then some "hi" else none) 0
          ⟨fun _ => none, 0⟩).note_index "coral" := by decide
  exact ⟨hne, fun h => hne (congrArg (fun d => d.note_index "coral") h)⟩

/-- Claim C5, amended: running the pass twice with the same snapshot
yields a state identical to running it once, provided both passes
observe the same wall-clock second (the source re-reads the clock each
pass, so with a later second only the `updated_unix` fields of upserted
records change, as the counterexample shows). -/
theorem hermes_c5_idempotent_same_timestamp (ws : String)
    (pages : String → Option String) (now : Nat) (db : IndexDb) :
    syncPass ws pages now (syncPass ws pages now db) = syncPass ws pages now db := by
  have hnd : TAB_KEYS.Nodup := by decide
  simp only [syncPass_eq_fold]
  refine IndexDb.ext (funext fun k => ?_) ?_
  · by_cases hk : k ∈ TAB_KEYS
    · rw [fold_noteIndex_mem ws pages now TAB_KEYS _ k hk,
        fold_noteIndex_mem ws pages now TAB_KEYS db k hk]
    · rw [fold_noteIndex_notMem ws pages now TAB_KEYS _ k hk]
  · have hA := fold_fts ws pages now TAB_KEYS hnd db
    have hB := fold_fts ws pages now TAB_KEYS hnd
      (applyTabsFold ws pages now TAB_KEYS db)
    rw [hB, hA, Multiset.filter_add]
    have hrows0 : (rowsFor pages TAB_KEYS).filter
        (fun r => r.tab_key ∉ TAB_KEYS) = 0 := by
      rw [Multiset.filter_eq_nil]
      intro r hr hP
      exact hP (rowsFor_key pages TAB_KEYS r hr)
    rw [hrows0, add_zero, Multiset.filter_filter]
    have hpp : (db.note_fts.filter
        (fun a => a.tab_key ∉ TAB_KEYS ∧ a.tab_key ∉ TAB_KEYS)) =
        db.note_fts.filter (fun a => a.tab_key ∉ TAB_KEYS) :=
      Multiset.filter_congr (fun a _ => by tauto)
    rw [hpp]

theorem rowsFor_filter (p : String → Option String) (j : String) :
    ∀ (tabs : List String), tabs.Nodup →
    (rowsFor p tabs).filter (fun r => r.tab_key = j) =
      if j ∈ tabs then slotFts p j else 0 := by
  intro tabs
  induction tabs with
  | nil => intro _; simp [rowsFor]
  | cons t rest ih =>
    intro hnd
    obtain ⟨htr, hrest⟩ := List.nodup_cons.mp hnd
    rw [rowsFor, Multiset.filter_add, ih hrest]
    by_cases hjt : j = t
    · subst hjt
      rw [if_pos (List.mem_cons_self j rest), if_neg htr, add_zero]
      unfold slotFts
      by_cases hb : blank ((p j).getD "")
      · simp [hb]
      · simp only [hb, Bool.false_eq_true, if_false]
        rw [Multiset.filter_singleton, if_pos rfl]
    · have h1 : (slotFts p t).filter (fun r => r.tab_key = j) = 0 := by
        unfold slotFts
        by_cases hb : blank ((p t).getD "")
        · simp [hb]
        · simp only [hb, Bool.false_eq_true, if_false]
          rw [Multiset.filter_singleton, if_neg (fun he => hjt he.symm)]
          rfl
      rw [h1, zero_add]
      by_cases hjr : j ∈ rest
      · rw [if_pos hjr, if_pos (List.mem_cons_of_mem t hjr)]
      · rw [if_neg hjr, if_neg (by simp [List.mem_cons, hjt, hjr])]

/-- Claim C4: injection safety. Content containing quote delimiters or
statement terminators cannot change the statement structure of the
executed script — the number of top-level statement terminators depends
only on which slots are blank, never on the content text — and the rows
of unrelated slots are unaffected by another slot's value: each slot's
`note_index` row and `note_fts` rows after a pass depend only on that
slot's own content. -/
theorem hermes_c4_injection_safety (ws : String) (now : Nat)
    (pages pages' : String → Option String) :
    ((∀ tab ∈ TAB_KEYS, blank ((pages tab).getD "") = blank ((pages' tab).getD "")) →
      stmtCount (buildScript ws pages now) = stmtCount (buildScript ws pages' now))
    ∧ (∀ (db : IndexDb) (j : String), pages j = pages' j →
        (syncPass ws pages now db).note_index j
            = (syncPass ws pages' now db).note_index j
        ∧ (syncPass ws pages now db).note_fts.filter (fun r => r.tab_key = j)
            = (syncPass ws pages' now db).note_fts.filter (fun r => r.tab_key = j)) := by
  constructor
  · intro hb
    rw [stmtCount_buildScript, stmtCount_buildScript]
    have hmap : TAB_KEYS.map (fun tab => if blank ((pages tab).getD "") then 2 else 3)
        = TAB_KEYS.map (fun tab => if blank ((pages' tab).getD "") then 2 else 3) := by
      refine List.map_congr_left ?_
      intro a ha
      rw [hb a ha]
    rw [hmap]
  · intro db j hj
    constructor
    · rw [syncPass_eq_fold, syncPass_eq_fold]
      by_cases hk : j ∈ TAB_KEYS
      · rw [fold_noteIndex_mem ws pages now TAB_KEYS db j hk,
          fold_noteIndex_mem ws pages' now TAB_KEYS db j hk]
        unfold slotRecord
        rw [hj]
      · rw [fold_noteIndex_notMem ws pages now TAB_KEYS db j hk,
          fold_noteIndex_notMem ws pages' now TAB_KEYS db j hk]
    · rw [syncPass_eq_fold, syncPass_eq_fold,
        fold_fts ws pages now TAB_KEYS (by decide) db,
        fold_fts ws pages' now TAB_KEYS (by decide) db,
        Multiset.filter_add, Multiset.filter_add,
        rowsFor_filter pages j TAB_KEYS (by decide),
        rowsFor_filter pages' j TAB_KEYS (by decide)]
      have hslot : slotFts pages j = slotFts pages' j := by
        unfold slotFts
        rw [hj]
      rw [hslot]

/-- Witness for C4: content carrying an apostrophe, semicolons and a SQL
comment marker yields a script with the same statement structure as
benign content, and leaves the unrelated "amber" slot's row as benign
content does. -/
theorem hermes_c4_witness :
    stmtCount (buildScript "ws"
        (fun k => if k = "coral" then some "it's; DROP TABLE note_index; --" else none) 7)
      = stmtCount (buildScript "ws"
        (fun k => if k = "coral" then some "benign" else none) 7)
    ∧ ((syncPass "ws"
          (fun k => if k = "coral" then some "it's; DROP TABLE note_index; --" else none)
          7 ⟨fun _ => none, 0⟩).note_index "amber"
        = (syncPass "ws" (fun k => if k = "coral" then some "benign" else none)
          7 ⟨fun _ => none, 0⟩).note_index "amber"
      ∧ (syncPass "ws"
          (fun k => if k = "coral" then some "it's; DROP TABLE note_index; --" else none)
          7 ⟨fun _ => none, 0⟩).note_fts.filter (fun r => r.tab_key = "amber")
        = (syncPass "ws" (fun k => if k = "coral" then some "benign" else none)
          7 ⟨fun _ => none, 0⟩).note_fts.filter (fun r => r.tab_key = "amber")) := by
  have h := hermes_c4_injection_safety "ws" 7
    (fun k => if k = "coral" then some "it's; DROP TABLE note_index; --" else none)
    (fun k => if k = "coral" then some "benign" else none)
  exact ⟨h.1 (by decide), h.2 ⟨fun _ => none, 0⟩ "amber" (by decide)⟩

theorem extractTitleFromLines_eq_spec : ∀ (l : List String),
    extractTitleFromLines l = specTitleFromLines l := by
  intro l
  induction l with
  | nil => rfl
  | cons line rest ih =>
    simp only [extractTitleFromLines]
    by_cases h1 : (rustTrim line).data.isEmpty
    · have hclean : (cleanLine line).data.isEmpty = true := by
        unfold cleanLine
        have hnil : (rustTrim line).data = [] := by
          cases hd : (rustTrim line).data with
          | nil => rfl
          | cons a as => rw [hd] at h1; simp at h1
        rw [hnil]
        rfl
      have hnone : lineTitle line = none := by
        unfold lineTitle
        rw [if_pos hclean]
      rw [if_pos h1, ih]
      unfold specTitleFromLines
      rw [List.filterMap_cons, hnone]
    · rw [if_neg h1]
      by_cases h2 : (rustTrim (String.mk
          ((rustTrim line).data.dropWhile (fun c => c = '#')))).data.isEmpty
      · have hnone : lineTitle line = none := by
          unfold lineTitle cleanLine
          rw [if_pos h2]
        rw [if_pos h2, ih]
        unfold specTitleFromLines
        rw [List.filterMap_cons, hnone]
      · have hsome : lineTitle line = some (rustTrim (String.mk
            ((rustTrim line).data.dropWhile (fun c => c = '#')))) := by
          unfold lineTitle cleanLine
          rw [if_neg h2]
        rw [if_neg h2]
        unfold specTitleFromLines
        rw [List.filterMap_cons, hsome]

theorem extractTitleFromLines_length : ∀ (l : List String),
    (extractTitleFromLines l).data.length ≤ 120 := by
  intro l
  induction l with
  | nil => simp [extractTitleFromLines]
  | cons line rest ih =>
    simp only [extractTitleFromLines]
    by_cases h1 : (rustTrim line).data.isEmpty
    · rw [if_pos h1]; exact ih
    · rw [if_neg h1]
      by_cases h2 : (rustTrim (String.mk
          ((rustTrim line).data.dropWhile (fun c => c = '#')))).data.isEmpty
      · rw [if_pos h2]; exact ih
      · rw [if_neg h2]
        show (List.take 120 _).length ≤ 120
        rw [List.length_take]
        exact min_le_left 120 _

/-- Claim C7: title extraction scans lines top-to-bottom, skipping blank
lines, stripping leading `#` and surrounding whitespace, skipping lines
that become empty, and truncates to 120 characters; `extract_title`
coincides with this spec-worded scan (`specTitle`), the stated examples
hold, and every title has at most 120 characters. -/
theorem hermes_c7_title_extraction :
    (∀ content, extract_title content = specTitle content)
    ∧ extract_title "# Hello World\n\nBody" = "Hello World"
    ∧ extract_title "\n\n   \n" = ""
    ∧ (extract_title (String.mk (List.replicate 200 'a'))).data.length = 120
    ∧ (∀ content, (extract_title content).data.length ≤ 120) := by
  refine ⟨?_, by decide, by decide, by decide, ?_⟩
  · intro content
    exact extractTitleFromLines_eq_spec (rustLines content)
  · intro content
    exact extractTitleFromLines_length (rustLines content)

end Hermes

